import Mathlib

/-!
Verification of the SFTP session engine of thongs-gtk4 (`thongssh_gtk/sftp_widget.py`,
with the keyring interface of `thongssh_gtk/keyring.py`).

The Python workers are embedded shallowly: each worker becomes a pure function
from its inputs and an oracle describing the outcomes of the external calls
(network, filesystem) to the list of observable events it emits (protocol
operations, log lines, UI-queue work) together with its result.  Machine
integers are `Nat`/`Int`; fallible lookups are `Option`; an exception raised by
an external call is an oracle answer, and the worker's `try`/`except` structure
is reproduced in the control flow.
-/

namespace ThongsSftp

/-! ## Progress callback (`_make_progress_callback`, sftp_widget.py:524-540) -/

/-- One invocation of the closure returned by `_make_progress_callback`.
`lastPercent` is the captured `last_percent` (initially `-1`).  When
`total_size == 0` the callback returns at once.  Otherwise the whole percentage
`int((bytes_transferred / total_size) * 100)` is computed (exact floor division
here; CPython evaluates the quotient in binary floating point, which agrees on
the quantities the step logic depends on) and is forwarded to the log only when
`percent >= last_percent + 10`; forwarding updates `last_percent`.  The second
component is the forwarded percentage, if any. -/
def progressCall (totalSize : Nat) (lastPercent : Int) (bytesTransferred : Nat) :
    Int × Option Nat :=
  if totalSize = 0 then (lastPercent, none)
  else
    let percent : Nat := bytesTransferred * 100 / totalSize
    if lastPercent + 10 ≤ (percent : Int) then (percent, some percent)
    else (lastPercent, none)

/-- Repeated invocation of the callback closure on successive byte counts,
threading the captured `last_percent` and accumulating every forwarded
percentage in order. -/
def progressFold (totalSize : Nat) : Int × List Nat → List Nat → Int × List Nat
  | acc, [] => acc
  | acc, b :: rest =>
    match progressCall totalSize acc.1 b with
    | (st, some p) => progressFold totalSize (st, acc.2 ++ [p]) rest
    | (st, none) => progressFold totalSize (st, acc.2) rest

/-- The sequence of percentages forwarded to the log sink for a transfer of
`totalSize` bytes whose callback fires at the given byte counts, starting from
`last_percent = -1`. -/
def forwardedPercents (totalSize : Nat) (calls : List Nat) : List Nat :=
  (progressFold totalSize (-1, []) calls).2

/-! ## Size formatting (`_format_size`, sftp_widget.py:649-657) -/

/-- The five-entry unit-name tuple of `_format_size` (sftp_widget.py:653). -/
def sizeNames : List String := ["B", "KiB", "MiB", "GiB", "TiB"]

/-- `_format_size` (sftp_widget.py:649-657).  Python's `int.bit_length` on a
nonnegative integer is `Nat.size`, and `int(bit_length / 10)` is floor division
by 10 (the float quotient of these small integers truncates to the same value).
The one-decimal mantissa `round(size_bytes / p, 1)` is rendered here from the
exact integer number of tenths; the claims about this function concern only
whether the table lookup succeeds, which the mantissa does not influence.  A
`none` result models the `IndexError` raised when `i` indexes past the
five-entry tuple. -/
def formatSize (sizeBytes : Nat) : Option String :=
  if sizeBytes = 0 then some "0 B"
  else
    let i := Nat.size sizeBytes / 10
    match sizeNames.get? i with
    | some unitName => some (toString (sizeBytes * 10 / 1024 ^ i) ++ " " ++ unitName)
    | none => none

/-! ## Properties of the progress callback -/

/-- Invariant of the progress fold: the forwarded output ascends in steps of at
least 10, the captured `last_percent` is `-1` while nothing has been forwarded,
and otherwise equals the last forwarded value. -/
def progressInv (st : Int) (out : List Nat) : Prop :=
  List.Chain' (fun a b => a + 10 ≤ b) out ∧
  (out = [] → st = -1) ∧
  (∀ l, out.getLast? = some l → st = (l : Int))

theorem progressInv_init : progressInv (-1) [] :=
  ⟨List.chain'_nil, fun _ => rfl, fun l hl => by simp at hl⟩

theorem progressFold_zero (acc : Int × List Nat) (calls : List Nat) :
    progressFold 0 acc calls = acc := by
  induction calls generalizing acc with
  | nil => rfl
  | cons b rest ih =>
    simp only [progressFold, progressCall, if_pos rfl]
    exact ih acc

theorem progressFold_append (totalSize : Nat) (acc : Int × List Nat)
    (l₁ l₂ : List Nat) :
    progressFold totalSize acc (l₁ ++ l₂) =
      progressFold totalSize (progressFold totalSize acc l₁) l₂ := by
  induction l₁ generalizing acc with
  | nil => rfl
  | cons b rest ih =>
    simp only [List.cons_append, progressFold]
    rcases hc : progressCall totalSize acc.1 b with ⟨st, o⟩
    cases o <;> simp only [] <;> exact ih _

theorem progressInv_step (totalSize : Nat) (st : Int) (out : List Nat) (b : Nat)
    (h : progressInv st out) :
    progressInv (progressCall totalSize st b).1
      (out ++ ((progressCall totalSize st b).2).toList) := by
  rcases h with ⟨hchain, hempty, hlast⟩
  unfold progressCall
  by_cases h0 : totalSize = 0
  · simpa [h0] using ⟨hchain, hempty, hlast⟩
  · simp only [h0, if_false]
    set p : Nat := b * 100 / totalSize with hp
    by_cases hfwd : st + 10 ≤ (p : Int)
    · simp only [hfwd, if_pos, Option.toList_some]
      refine ⟨?_, ?_, ?_⟩
      · refine List.Chain'.append hchain (List.chain'_singleton p) ?_
        intro x hx y hy
        simp only [List.head?_cons, Option.mem_def, Option.some.injEq] at hy
        subst hy
        have hst : st = (x : Int) := hlast x hx
        have : (x : Int) + 10 ≤ (p : Int) := by rw [← hst]; exact hfwd
        exact_mod_cast this
      · intro hnil
        exact absurd hnil (by simp)
      · intro l hl
        rw [List.getLast?_concat] at hl
        simp only [Option.some.injEq] at hl
        subst hl
        rfl
    · simp only [hfwd, if_false, Option.toList_none, List.append_nil]
      exact ⟨hchain, hempty, hlast⟩

theorem progressFold_inv (totalSize : Nat) (calls : List Nat) :
    ∀ st out, progressInv st out →
      progressInv (progressFold totalSize (st, out) calls).1
        (progressFold totalSize (st, out) calls).2 := by
  induction calls with
  | nil => intro st out h; exact h
  | cons b rest ih =>
    intro st out h
    have hstep := progressInv_step totalSize st out b h
    rcases hc : progressCall totalSize st b with ⟨st2, o⟩
    rw [hc] at hstep
    cases o with
    | none =>
      simp only [Option.toList_none, List.append_nil] at hstep
      simpa only [progressFold, hc] using ih st2 out hstep
    | some p =>
      simp only [Option.toList_some] at hstep
      simpa only [progressFold, hc] using ih st2 (out ++ [p]) hstep

/-- Claim C5 (amended): for a single-file transfer of `S` bytes, the sequence of
forwarded progress percentages ascends strictly with each step at least 10
points, and for `S = 0` no progress event is forwarded at all; when the
transport invokes the callback a final time with `S` bytes transferred, the
final forwarded value is at least 91 (it is 100 exactly when no value above 90
was forwarded earlier), but it need not be 100. -/
theorem progress_forwarding (S : Nat) (calls : List Nat) :
    (S = 0 → forwardedPercents S calls = []) ∧
    List.Chain' (fun a b => a + 10 ≤ b) (forwardedPercents S calls) ∧
    (0 < S → calls.getLast? = some S →
      ∃ l, (forwardedPercents S calls).getLast? = some l ∧ 91 ≤ l) := by
  refine ⟨?_, ?_, ?_⟩
  · intro h0
    subst h0
    simp [forwardedPercents, progressFold_zero]
  · exact (progressFold_inv S calls (-1) [] progressInv_init).1
  · intro hS hlastcall
    obtain ⟨init, hcalls⟩ := List.getLast?_eq_some_iff.mp hlastcall
    subst hcalls
    have hinv := progressFold_inv S init (-1) [] progressInv_init
    rcases hfold : progressFold S (-1, []) init with ⟨st, out⟩
    rw [hfold] at hinv
    have hpercent : S * 100 / S = 100 := by
      rw [Nat.mul_comm]; exact Nat.mul_div_cancel 100 hS
    have hS0 : S ≠ 0 := Nat.pos_iff_ne_zero.mp hS
    unfold forwardedPercents
    rw [progressFold_append, hfold]
    by_cases hfwd : st + 10 ≤ (100 : Int)
    · have : progressFold S (st, out) [S] = (100, out ++ [100]) := by
        simp [progressFold, progressCall, hS0, hpercent, if_pos hfwd]
      rw [this]
      exact ⟨100, List.getLast?_concat out, by norm_num⟩
    · have hrun : progressFold S (st, out) [S] = (st, out) := by
        simp [progressFold, progressCall, hS0, hpercent, if_neg hfwd]
      rw [hrun]
      have hst91 : (91 : Int) ≤ st := by
        push_cast at hfwd
        omega
      have hout : out ≠ [] := by
        intro hnil
        have := hinv.2.1 hnil
        omega
      obtain ⟨l, hl⟩ := Option.isSome_iff_exists.mp (List.getLast?_isSome.mpr hout)
      refine ⟨l, hl, ?_⟩
      have := hinv.2.2 l hl
      have : (91 : Int) ≤ (l : Int) := this ▸ hst91
      exact_mod_cast this

/-- Witness for `progress_forwarding`: a 100-byte transfer whose callback fires
at 50 and then 100 bytes forwards a final value of at least 91. -/
theorem progress_forwarding_witness :
    (0 : Nat) < 100 ∧ ([50, 100] : List Nat).getLast? = some 100 ∧
      ∃ l, (forwardedPercents 100 [50, 100]).getLast? = some l ∧ 91 ≤ l :=
  ⟨by decide, by decide, (progress_forwarding 100 [50, 100]).2.2 (by decide) (by decide)⟩

/-- Claim C5 counterexample: for a 100-byte transfer whose callback fires at 95
bytes and then at completion, only 95 is forwarded — the final forwarded value
is 95, not 100 (100 is suppressed because it is less than 95 + 10). -/
theorem progress_final_value_not_100 :
    forwardedPercents 100 [95, 100] = [95] ∧
      (forwardedPercents 100 [95, 100]).getLast? ≠ some 100 := by
  exact ⟨rfl, by decide⟩

/-! ## Properties of the size formatter -/

/-- Claim C9 (amended): the size formatter is total exactly for byte sizes below
2^49: for every `s` with `0 ≤ s < 2^49` the computed unit index
`int(bit_length(s) / 10)` is at most 4, the lookup in the five-entry unit-name
table succeeds and a string is returned; sizes of 2^49 and above (bit length at
least 50) compute index 5 or more and index past the end of the table. -/
theorem formatSize_defined_iff_below_pow49 (s : Nat) :
    (s < 2 ^ 49 → (formatSize s).isSome = true) ∧
    (2 ^ 49 ≤ s → formatSize s = none) := by
  constructor
  · intro h
    by_cases h0 : s = 0
    · subst h0; simp [formatSize]
    · have hsize : Nat.size s ≤ 49 := Nat.size_le.mpr h
      have hi : Nat.size s / 10 ≤ 4 :=
        le_trans (Nat.div_le_div_right hsize) (by norm_num)
      have hlt : Nat.size s / 10 < sizeNames.length := by
        simp only [sizeNames, List.length_cons, List.length_nil]
        omega
      simp only [formatSize, h0, if_false]
      rw [List.get?_eq_getElem?, List.getElem?_eq_getElem hlt]
      simp
  · intro h
    have h0 : s ≠ 0 := by
      have : (0 : Nat) < 2 ^ 49 := by positivity
      omega
    have hsize : 49 < Nat.size s := Nat.lt_size.mpr h
    have hi : 5 ≤ Nat.size s / 10 := by
      have : 50 / 10 ≤ Nat.size s / 10 := Nat.div_le_div_right (by omega)
      simpa using this
    have hnone : sizeNames.get? (Nat.size s / 10) = none := by
      rw [List.get?_eq_getElem?]
      exact List.getElem?_eq_none (by simpa [sizeNames] using hi)
    simp only [formatSize, h0, if_false, hnone]

/-- Witness for `formatSize_defined_iff_below_pow49` at the concrete size 3. -/
theorem formatSize_defined_iff_below_pow49_witness : (formatSize 3).isSome = true :=
  (formatSize_defined_iff_below_pow49 3).1 (by norm_num)

/-- Claim C9 counterexample: 2^49 is below 2^50, yet `_format_size` computes
unit index `int(50 / 10) = 5` and the lookup in the five-entry unit table
fails (an `IndexError`), so no string is returned. -/
theorem formatSize_fails_below_pow50 :
    2 ^ 49 < 2 ^ 50 ∧ formatSize (2 ^ 49) = none := by
  constructor
  · norm_num
  · have hsz : Nat.size (2 ^ 49 : Nat) = 50 := by
      have h1 : Nat.size (2 ^ 49 : Nat) ≤ 50 := Nat.size_le.mpr (by norm_num)
      have h2 : 49 < Nat.size (2 ^ 49 : Nat) := Nat.lt_size.mpr (le_refl _)
      omega
    have h0 : (2 : Nat) ^ 49 ≠ 0 := by positivity
    simp only [formatSize, h0, if_false, hsz]
    rfl

/-! ## File trees, paths and observable events of the workers -/

/-- A snapshot of a file-system subtree (local for uploads, remote for
downloads and deletes).  Children appear in directory-listing order
(`os.listdir` / `listdir_attr`). -/
inductive FsTree where
  | file (name : String) (size : Nat)
  | dir (name : String) (children : List FsTree)

/-- Base name of the tree node. -/
def FsTree.nodeName : FsTree → String
  | .file n _ => n
  | .dir n _ => n

/-- Directory test for a tree node. -/
def FsTree.isDirNode : FsTree → Bool
  | .file _ _ => false
  | .dir _ _ => true

/-- Path join as performed by the workers: `os.path.join(a, b)` followed by
`.replace('\\', '/')` on POSIX separators. -/
def pjoin (a b : String) : String := a ++ "/" ++ b

/-- Observable events of a background worker, in emission order: SFTP protocol
calls, local filesystem calls, log lines (`_log_message`, flagged by
`is_error`), and closures enqueued on the UI queue. -/
inductive Ev where
  | mkdirE (path : String)
  | putE (localPath remotePath : String)
  | getE (remotePath localPath : String)
  | statE (path : String)
  | listdirE (path : String)
  | removeE (path : String)
  | rmdirE (path : String)
  | makedirsE (path : String)
  | logE (isError : Bool)
  | uiputE
  deriving DecidableEq, Repr

/-- Outcomes of the external calls a transfer worker issues.  `true` means the
call raises (any exception: for `mkdir` this includes "already exists"). -/
structure XferOracle where
  mkdirFails : String → Bool
  putFails : String → Bool
  getFails : String → Bool
  statFails : String → Bool
  listdirFails : String → Bool
  makedirsFails : String → Bool

/-! ### `os.walk` over a local tree (used by `_upload_worker`) -/

/-- One `os.walk` entry, relative to the walk root: the relative directory path
(`os.path.relpath(dirpath, local_path)`, `"."` for the root itself), the
subdirectory names and the file names, in listing order. -/
abbrev WalkEntry := String × List String × List String

/-- Relative path of a child within the walk (`"."`-rooted, as produced by
`os.path.relpath` on the paths `os.walk` yields). -/
def childRel (rel child : String) : String :=
  if rel = "." then child else rel ++ "/" ++ child

/-- Names of the directory children of a listing, in order. -/
def dirNames (cs : List FsTree) : List String :=
  (cs.filter FsTree.isDirNode).map FsTree.nodeName

/-- Names of the file children of a listing, in order. -/
def fileNames (cs : List FsTree) : List String :=
  (cs.filter (fun c => !c.isDirNode)).map FsTree.nodeName

mutual

/-- Top-down `os.walk` over a tree, with paths relative to the walk root.
Walking a non-directory yields nothing, so recursing over every child is the
same as recursing over the directory children only. -/
def walkRel : String → FsTree → List WalkEntry
  | _, .file _ _ => []
  | rel, .dir _ cs => (rel, dirNames cs, fileNames cs) :: walkRelList rel cs

/-- Walk of the children of a directory, in listing order. -/
def walkRelList : String → List FsTree → List WalkEntry
  | _, [] => []
  | rel, c :: cs => walkRel (childRel rel c.nodeName) c ++ walkRelList rel cs

end

/-! ### `_upload_worker` (sftp_widget.py:561-602) -/

/-- File puts of one walked directory (`for filename in filenames`,
sftp_widget.py:590-595).  Every put is issued in order; the first raising put
aborts the loop, the exception propagating to the worker's handler.  The
boolean is `true` when no put raised. -/
def uploadPutFiles (o : XferOracle) (localDir remoteDir : String) :
    List String → List Ev × Bool
  | [] => ([], true)
  | f :: fs =>
    if o.putFails (pjoin remoteDir f) then
      ([.putE (pjoin localDir f) (pjoin remoteDir f)], false)
    else
      let rest := uploadPutFiles o localDir remoteDir fs
      (.putE (pjoin localDir f) (pjoin remoteDir f) :: rest.1, rest.2)

/-- The walk loop of `_upload_worker` (sftp_widget.py:577-595): for each walked
directory, create each subdirectory on the remote side with any failure
swallowed (`except Exception: pass`, lines 584-588), then upload each file; a
raising put aborts the remaining walk entries. -/
def uploadWalkLoop (o : XferOracle) (localPath remotePath : String) :
    List WalkEntry → List Ev × Bool
  | [] => ([], true)
  | (rel, subdirs, files) :: rest =>
    let remoteDir := if rel = "." then remotePath else pjoin remotePath rel
    let localDir := if rel = "." then localPath else pjoin localPath rel
    let mkdirEvs := subdirs.map (fun s => Ev.mkdirE (pjoin remoteDir s))
    let puts := uploadPutFiles o localDir remoteDir files
    if puts.2 then
      let cont := uploadWalkLoop o localPath remotePath rest
      (mkdirEvs ++ puts.1 ++ cont.1, cont.2)
    else
      (mkdirEvs ++ puts.1, false)

/-- Body of `_upload_worker` after the connection guard (sftp_widget.py:564-602).
`tree` is the snapshot of the local path being uploaded; its root name is
`os.path.basename(local_path)`.  The trace is: opening log line, protocol calls,
then either the success log line and the UI-queue refresh, or the single error
log line of the `except` block.  Note the destination `mkdir` of line 576 is
not wrapped in its own handler: its failure aborts the whole task. -/
def uploadWorkerBody (o : XferOracle) (tree : FsTree)
    (localPath remoteDestDir : String) (isDir : Bool) : List Ev :=
  let remotePath := pjoin remoteDestDir tree.nodeName
  if !isDir then
    if o.putFails remotePath then
      [.logE false, .putE localPath remotePath, .logE true]
    else
      [.logE false, .putE localPath remotePath, .logE false, .uiputE]
  else
    if o.mkdirFails remotePath then
      [.logE false, .mkdirE remotePath, .logE true]
    else
      let loop := uploadWalkLoop o localPath remotePath (walkRel "." tree)
      if loop.2 then
        [.logE false, .mkdirE remotePath] ++ loop.1 ++ [.logE false, .uiputE]
      else
        [.logE false, .mkdirE remotePath] ++ loop.1 ++ [.logE true]

/-- `_upload_worker` (sftp_widget.py:561-602) including the connection guard
`if not self.sftp_client: return` (line 563): with no SFTP client the worker
returns before emitting any event. -/
def uploadWorker (sftpClient : Option Unit) (o : XferOracle) (tree : FsTree)
    (localPath remoteDestDir : String) (isDir : Bool) : List Ev :=
  match sftpClient with
  | none => []
  | some _ => uploadWorkerBody o tree localPath remoteDestDir isDir

/-! ### `_download_worker` (sftp_widget.py:623-647) -/

mutual

/-- `_download_worker` (sftp_widget.py:623-647).  `tree` is the snapshot of the
remote node at `remotePath` (whose base name is the node name).  For a file:
`stat`, the opening log line, `get`, then the success log line; for a
directory: the opening log line, `os.makedirs(..., exist_ok=True)`,
`listdir_attr`, a recursive call per entry, then the success log line.  Each
call has its own `try`/`except`, so a raising child is logged inside the child
call and the parent's loop continues with the remaining entries.  Every
successful call (including each nested one) enqueues a refresh of the local
panel on the UI queue. -/
def downloadWorker (sftpClient : Option Unit) (o : XferOracle) (tree : FsTree)
    (remotePath localDestDir : String) : List Ev :=
  match sftpClient with
  | none => []
  | some _ =>
    let localPath := pjoin localDestDir tree.nodeName
    match tree with
    | .file _ _ =>
      if o.statFails remotePath then
        [.statE remotePath, .logE true]
      else if o.getFails remotePath then
        [.statE remotePath, .logE false, .getE remotePath localPath, .logE true]
      else
        [.statE remotePath, .logE false, .getE remotePath localPath,
          .logE false, .uiputE]
    | .dir _ cs =>
      if o.makedirsFails localPath then
        [.logE false, .makedirsE localPath, .logE true]
      else if o.listdirFails remotePath then
        [.logE false, .makedirsE localPath, .listdirE remotePath, .logE true]
      else
        [.logE false, .makedirsE localPath, .listdirE remotePath] ++
          downloadChildren sftpClient o cs remotePath localPath ++
          [.logE false, .uiputE]

/-- The `for item in self.sftp_client.listdir_attr(remote_path)` loop of
`_download_worker` (sftp_widget.py:639-640): one recursive call per listed
entry, in listing order, regardless of earlier entries' failures. -/
def downloadChildren (sftpClient : Option Unit) (o : XferOracle)
    (cs : List FsTree) (remotePath localPath : String) : List Ev :=
  match cs with
  | [] => []
  | c :: rest =>
      downloadWorker sftpClient o c (pjoin remotePath c.nodeName) localPath ++
        downloadChildren sftpClient o rest remotePath localPath

end

/-! ### `_sftp_rm_recursive` (sftp_widget.py:997-1008) -/

mutual

/-- Calls issued by `_sftp_rm_recursive` on the node at `path`: for a directory,
`listdir_attr`, then per entry a direct `remove` (files) or a recursive delete
(subdirectories), then `rmdir` of the now-empty directory and a log line.  A
file node's singleton trace is the parent loop's direct `remove`.  Exceptions
propagate to `_execute_delete` which only logs; this is the call sequence when
no call raises. -/
def rmTrace : String → FsTree → List Ev
  | path, .file _ _ => [.removeE path]
  | path, .dir _ cs =>
      .listdirE path :: (rmTraceChildren path cs ++ [.rmdirE path, .logE false])

/-- Per-entry deletions of the `for item in ...listdir_attr(path)` loop
(sftp_widget.py:1001-1006), in listing order. -/
def rmTraceChildren : String → List FsTree → List Ev
  | _, [] => []
  | path, c :: cs => rmTrace (pjoin path c.nodeName) c ++ rmTraceChildren path cs

end

mutual

/-- Every node of a tree, paired with its full path. -/
def subtrees : String → FsTree → List (String × FsTree)
  | path, .file n sz => [(path, .file n sz)]
  | path, .dir n cs => (path, .dir n cs) :: subtreesChildren path cs

/-- Nodes of a list of children, with their full paths. -/
def subtreesChildren : String → List FsTree → List (String × FsTree)
  | _, [] => []
  | path, c :: cs => subtrees (pjoin path c.nodeName) c ++ subtreesChildren path cs

end

/-- The protocol call that removes a given node: `remove` for a file, `rmdir`
for a directory. -/
def removalEv (path : String) : FsTree → Ev
  | .file _ _ => .removeE path
  | .dir _ _ => .rmdirE path

/-! ## Workers without a connection (claim C10) -/

/-- Claim C10: with no SFTP connection (`self.sftp_client` is `None`), both the
upload worker and the download worker return at their opening guard: no
transfer call is issued, no log line is produced, no UI-queue work is enqueued
— the event trace is empty. -/
theorem workers_without_client_do_nothing (o : XferOracle) (tree : FsTree)
    (a b c d : String) (isDir : Bool) :
    uploadWorker none o tree a b isDir = [] ∧
    downloadWorker none o tree c d = [] := by
  constructor
  · rfl
  · rw [downloadWorker]

/-! ## Idempotence of directory creation during uploads (claim C3) -/

/-- Remote destinations of the file puts the upload walk loop issues, in
order. -/
def putTargets (remotePath : String) : List WalkEntry → List String
  | [] => []
  | (rel, _, files) :: rest =>
    let remoteDir := if rel = "." then remotePath else pjoin remotePath rel
    files.map (fun f => pjoin remoteDir f) ++ putTargets remotePath rest

theorem uploadPutFiles_ok_iff (o : XferOracle) (ld rd : String)
    (files : List String) :
    (uploadPutFiles o ld rd files).2 = true ↔
      ∀ f ∈ files, o.putFails (pjoin rd f) = false := by
  induction files with
  | nil => simp [uploadPutFiles]
  | cons f fs ih =>
    by_cases hf : o.putFails (pjoin rd f) = true
    · simp [uploadPutFiles, hf]
    · have hf' : o.putFails (pjoin rd f) = false := by
        simpa using hf
      simp [uploadPutFiles, hf', ih]

theorem uploadWalkLoop_ok_iff (o : XferOracle) (lp rp : String)
    (entries : List WalkEntry) :
    (uploadWalkLoop o lp rp entries).2 = true ↔
      ∀ tgt ∈ putTargets rp entries, o.putFails tgt = false := by
  induction entries with
  | nil => simp [uploadWalkLoop, putTargets]
  | cons e rest ih =>
    obtain ⟨rel, subdirs, files⟩ := e
    simp only [uploadWalkLoop, putTargets, List.mem_append, List.mem_map]
    by_cases hputs : (uploadPutFiles o (if rel = "." then lp else pjoin lp rel)
        (if rel = "." then rp else pjoin rp rel) files).2 = true
    · rw [if_pos hputs]
      rw [uploadPutFiles_ok_iff] at hputs
      constructor
      · intro hrest tgt htgt
        rcases htgt with ⟨f, hf, hfe⟩ | htgt
        · exact hfe ▸ hputs f hf
        · exact (ih.mp hrest) tgt htgt
      · intro hall
        exact ih.mpr (fun tgt htgt => hall tgt (Or.inr htgt))
    · rw [if_neg hputs]
      simp only [Bool.false_eq_true, false_iff]
      intro hall
      apply hputs
      rw [uploadPutFiles_ok_iff]
      intro f hf
      exact hall (pjoin (if rel = "." then rp else pjoin rp rel) f)
        (Or.inl ⟨f, hf, rfl⟩)

/-- Claim C3 (amended): during a recursive directory upload only the
subdirectory creations are idempotent: every failure of a subdirectory `mkdir`
(including "already exists") is swallowed, so the task succeeds (its trace ends
with the success refresh on the UI queue) exactly when the top-level
destination `mkdir` and every file put succeed, independent of the subdirectory
`mkdir` outcomes.  The creation of the destination directory itself is not
idempotent: its failure — an "already exists" failure included — aborts the
transfer before any file is copied. -/
theorem upload_mkdir_idempotence (o : XferOracle) (tree : FsTree)
    (lp rdd : String) :
    ((uploadWorkerBody o tree lp rdd true).getLast? = some Ev.uiputE ↔
      (o.mkdirFails (pjoin rdd tree.nodeName) = false ∧
       ∀ tgt ∈ putTargets (pjoin rdd tree.nodeName) (walkRel "." tree),
         o.putFails tgt = false)) ∧
    (o.mkdirFails (pjoin rdd tree.nodeName) = true →
      uploadWorkerBody o tree lp rdd true =
        [.logE false, .mkdirE (pjoin rdd tree.nodeName), .logE true]) := by
  constructor
  · by_cases hmk : o.mkdirFails (pjoin rdd tree.nodeName) = true
    · simp only [uploadWorkerBody, Bool.not_true, Bool.false_eq_true, if_false,
        if_pos hmk]
      simp [hmk]
    · have hmk' : o.mkdirFails (pjoin rdd tree.nodeName) = false := by
        simpa using hmk
      simp only [uploadWorkerBody, Bool.not_true, Bool.false_eq_true, if_false,
        hmk']
      by_cases hloop : (uploadWalkLoop o lp (pjoin rdd tree.nodeName)
          (walkRel "." tree)).2 = true
      · rw [if_pos hloop]
        rw [uploadWalkLoop_ok_iff] at hloop
        constructor
        · intro _; exact ⟨by trivial, hloop⟩
        · intro _
          have : ([Ev.logE false, Ev.mkdirE (pjoin rdd tree.nodeName)] ++
              (uploadWalkLoop o lp (pjoin rdd tree.nodeName)
                (walkRel "." tree)).1 ++ [Ev.logE false]) ++ [Ev.uiputE] =
              [Ev.logE false, Ev.mkdirE (pjoin rdd tree.nodeName)] ++
              (uploadWalkLoop o lp (pjoin rdd tree.nodeName)
                (walkRel "." tree)).1 ++ [Ev.logE false, Ev.uiputE] := by
            simp
          rw [← this, List.getLast?_concat]
      · rw [if_neg hloop]
        constructor
        · intro hlast
          exfalso
          have : ([Ev.logE false, Ev.mkdirE (pjoin rdd tree.nodeName)] ++
              (uploadWalkLoop o lp (pjoin rdd tree.nodeName)
                (walkRel "." tree)).1) ++ [Ev.logE true] =
              [Ev.logE false, Ev.mkdirE (pjoin rdd tree.nodeName)] ++
              (uploadWalkLoop o lp (pjoin rdd tree.nodeName)
                (walkRel "." tree)).1 ++ [Ev.logE true] := by
            simp
          rw [← this, List.getLast?_concat] at hlast
          exact Ev.noConfusion (Option.some.injEq _ _ ▸ hlast)
        · intro hok
          exact absurd (uploadWalkLoop_ok_iff o lp _ _ |>.mpr hok.2) hloop
  · intro hmk
    simp [uploadWorkerBody, hmk]

/-- Witness for `upload_mkdir_idempotence`: a failing destination `mkdir`
aborts the upload of a one-file directory before any put. -/
theorem upload_mkdir_idempotence_witness :
    uploadWorkerBody
        { mkdirFails := fun p => p = "/dest/d", putFails := fun _ => false,
          getFails := fun _ => false, statFails := fun _ => false,
          listdirFails := fun _ => false, makedirsFails := fun _ => false }
        (.dir "d" [.file "f" 1]) "/src/d" "/dest" true =
      [.logE false, .mkdirE "/dest/d", .logE true] :=
  (upload_mkdir_idempotence _ (.dir "d" [.file "f" 1]) "/src/d" "/dest").2
    (by decide)

/-- Claim C3 counterexample: an "already exists"-style failure of the creation
of the destination directory itself is treated as an error: it aborts the
directory upload (the worker logs the failure and stops), and the contained
file is never copied. -/
theorem upload_dest_mkdir_failure_aborts :
    uploadWorker (some ())
        { mkdirFails := fun p => p = "/dest/d", putFails := fun _ => false,
          getFails := fun _ => false, statFails := fun _ => false,
          listdirFails := fun _ => false, makedirsFails := fun _ => false }
        (.dir "d" [.file "f" 1]) "/src/d" "/dest" true =
      [.logE false, .mkdirE "/dest/d", .logE true] ∧
    Ev.putE "/src/d/f" "/dest/d/f" ∉
      uploadWorker (some ())
        { mkdirFails := fun p => p = "/dest/d", putFails := fun _ => false,
          getFails := fun _ => false, statFails := fun _ => false,
          listdirFails := fun _ => false, makedirsFails := fun _ => false }
        (.dir "d" [.file "f" 1]) "/src/d" "/dest" true := by
  constructor
  · rfl
  · decide

/-! ## First-error policy of recursive transfers (claim C2) -/

/-- Whether an event is a put that the oracle makes raise. -/
def isFailingPut (o : XferOracle) : Ev → Bool
  | .putE _ remotePath => o.putFails remotePath
  | _ => false

/-- Whether an event removes something (`remove` or `rmdir`). -/
def isRemovalEv : Ev → Bool
  | .removeE _ => true
  | .rmdirE _ => true
  | _ => false

theorem mem_dropLast_cons {α : Type} {e a : α} {l : List α}
    (h : e ∈ (a :: l).dropLast) : e = a ∨ e ∈ l.dropLast := by
  cases l with
  | nil => simp at h
  | cons b t =>
    rcases List.mem_cons.mp (by simpa [List.dropLast] using h) with h' | h'
    · exact Or.inl h'
    · exact Or.inr (by simpa [List.dropLast] using h')

theorem mem_dropLast_append {α : Type} {e : α} {A B : List α}
    (h : e ∈ (A ++ B).dropLast) : e ∈ A ∨ e ∈ B.dropLast := by
  by_cases hB : B = []
  · subst hB
    rw [List.append_nil] at h
    exact Or.inl ((List.dropLast_sublist A).mem h)
  · rw [List.dropLast_append_of_ne_nil _ hB] at h
    exact List.mem_append.mp h

theorem uploadPutFiles_all_ok (o : XferOracle) (ld rd : String)
    (files : List String) (hok : (uploadPutFiles o ld rd files).2 = true) :
    ∀ e ∈ (uploadPutFiles o ld rd files).1, isFailingPut o e = false := by
  induction files with
  | nil => intro e he; simp [uploadPutFiles] at he
  | cons f fs ih =>
    by_cases hf : o.putFails (pjoin rd f) = true
    · rw [uploadPutFiles, if_pos hf] at hok
      exact absurd hok (by simp)
    · have hf' : o.putFails (pjoin rd f) = false := by simpa using hf
      rw [uploadPutFiles, if_neg hf] at hok ⊢
      intro e he
      rcases List.mem_cons.mp he with he' | he'
      · subst he'; simp [isFailingPut, hf']
      · exact ih hok e he'

theorem uploadPutFiles_dropLast_ok (o : XferOracle) (ld rd : String)
    (files : List String) :
    ∀ e ∈ ((uploadPutFiles o ld rd files).1).dropLast,
      isFailingPut o e = false := by
  induction files with
  | nil => intro e he; simp [uploadPutFiles] at he
  | cons f fs ih =>
    by_cases hf : o.putFails (pjoin rd f) = true
    · intro e he
      rw [uploadPutFiles, if_pos hf] at he
      simp at he
    · have hf' : o.putFails (pjoin rd f) = false := by simpa using hf
      intro e he
      rw [uploadPutFiles, if_neg hf] at he
      rcases mem_dropLast_cons he with he' | he'
      · subst he'; simp [isFailingPut, hf']
      · exact ih e he'

theorem uploadPutFiles_fail_last (o : XferOracle) (ld rd : String)
    (files : List String) (hfail : (uploadPutFiles o ld rd files).2 = false) :
    ∃ lpth rpth, (uploadPutFiles o ld rd files).1.getLast? =
        some (.putE lpth rpth) ∧ o.putFails rpth = true := by
  induction files with
  | nil => rw [uploadPutFiles] at hfail; exact absurd hfail (by simp)
  | cons f fs ih =>
    by_cases hf : o.putFails (pjoin rd f) = true
    · rw [uploadPutFiles, if_pos hf]
      exact ⟨pjoin ld f, pjoin rd f, rfl, hf⟩
    · rw [uploadPutFiles, if_neg hf] at hfail ⊢
      obtain ⟨lpth, rpth, hlast, hfails⟩ := ih hfail
      refine ⟨lpth, rpth, ?_, hfails⟩
      have hne : (uploadPutFiles o ld rd fs).1 ≠ [] := by
        intro hnil
        rw [hnil] at hlast
        simp at hlast
      calc (Ev.putE (pjoin ld f) (pjoin rd f) :: (uploadPutFiles o ld rd fs).1).getLast?
          = ([Ev.putE (pjoin ld f) (pjoin rd f)] ++
              (uploadPutFiles o ld rd fs).1).getLast? := rfl
        _ = (uploadPutFiles o ld rd fs).1.getLast? :=
              List.getLast?_append_of_ne_nil _ hne
        _ = some (.putE lpth rpth) := hlast

theorem mkdirEvs_not_failing (o : XferOracle) (remoteDir : String)
    (subdirs : List String) {e : Ev}
    (he : e ∈ subdirs.map (fun s => Ev.mkdirE (pjoin remoteDir s))) :
    isFailingPut o e = false := by
  obtain ⟨s, _, hs⟩ := List.mem_map.mp he
  subst hs
  rfl

theorem uploadWalkLoop_dropLast_ok (o : XferOracle) (lp rp : String)
    (entries : List WalkEntry) :
    ∀ e ∈ ((uploadWalkLoop o lp rp entries).1).dropLast,
      isFailingPut o e = false := by
  induction entries with
  | nil => intro e he; simp [uploadWalkLoop] at he
  | cons entry rest ih =>
    obtain ⟨rel, subdirs, files⟩ := entry
    intro e he
    rw [uploadWalkLoop] at he
    simp only [] at he
    by_cases hputs : (uploadPutFiles o (if rel = "." then lp else pjoin lp rel)
        (if rel = "." then rp else pjoin rp rel) files).2 = true
    · rw [if_pos hputs] at he
      rw [List.append_assoc] at he
      rcases mem_dropLast_append he with h | h
      · exact mkdirEvs_not_failing o _ subdirs h
      · rcases mem_dropLast_append h with h' | h'
        · exact uploadPutFiles_all_ok o _ _ files hputs e h'
        · exact ih e h'
    · rw [if_neg hputs] at he
      rcases mem_dropLast_append he with h | h
      · exact mkdirEvs_not_failing o _ subdirs h
      · exact uploadPutFiles_dropLast_ok o _ _ files e h

theorem uploadWalkLoop_fail_last (o : XferOracle) (lp rp : String)
    (entries : List WalkEntry)
    (hfail : (uploadWalkLoop o lp rp entries).2 = false) :
    ∃ lpth rpth, (uploadWalkLoop o lp rp entries).1.getLast? =
        some (.putE lpth rpth) ∧ o.putFails rpth = true := by
  induction entries with
  | nil => rw [uploadWalkLoop] at hfail; exact absurd hfail (by simp)
  | cons entry rest ih =>
    obtain ⟨rel, subdirs, files⟩ := entry
    rw [uploadWalkLoop] at hfail ⊢
    simp only [] at hfail ⊢
    by_cases hputs : (uploadPutFiles o (if rel = "." then lp else pjoin lp rel)
        (if rel = "." then rp else pjoin rp rel) files).2 = true
    · rw [if_pos hputs] at hfail ⊢
      obtain ⟨lpth, rpth, hlast, hfails⟩ := ih hfail
      refine ⟨lpth, rpth, ?_, hfails⟩
      have hne : (uploadWalkLoop o lp rp rest).1 ≠ [] := by
        intro hnil
        rw [hnil] at hlast
        simp at hlast
      rw [List.append_assoc, List.getLast?_append_of_ne_nil _
        (by simp [hne] : ((uploadPutFiles o (if rel = "." then lp else pjoin lp rel)
          (if rel = "." then rp else pjoin rp rel) files).1 ++
            (uploadWalkLoop o lp rp rest).1) ≠ []),
        List.getLast?_append_of_ne_nil _ hne]
      exact hlast
    · rw [if_neg hputs] at hfail ⊢
      have hputs' : (uploadPutFiles o (if rel = "." then lp else pjoin lp rel)
          (if rel = "." then rp else pjoin rp rel) files).2 = false := by
        simpa using hputs
      obtain ⟨lpth, rpth, hlast, hfails⟩ :=
        uploadPutFiles_fail_last o _ _ files hputs'
      refine ⟨lpth, rpth, ?_, hfails⟩
      have hne : (uploadPutFiles o (if rel = "." then lp else pjoin lp rel)
          (if rel = "." then rp else pjoin rp rel) files).1 ≠ [] := by
        intro hnil
        rw [hnil] at hlast
        simp at hlast
      rw [List.getLast?_append_of_ne_nil _ hne]
      exact hlast

theorem uploadPutFiles_no_removal (o : XferOracle) (ld rd : String)
    (files : List String) :
    ∀ e ∈ (uploadPutFiles o ld rd files).1, isRemovalEv e = false := by
  induction files with
  | nil => intro e he; simp [uploadPutFiles] at he
  | cons f fs ih =>
    intro e he
    by_cases hf : o.putFails (pjoin rd f) = true
    · rw [uploadPutFiles, if_pos hf] at he
      simp only [List.mem_singleton] at he
      subst he
      rfl
    · rw [uploadPutFiles, if_neg hf] at he
      rcases List.mem_cons.mp he with he' | he'
      · subst he'; rfl
      · exact ih e he'

theorem uploadWalkLoop_no_removal (o : XferOracle) (lp rp : String)
    (entries : List WalkEntry) :
    ∀ e ∈ (uploadWalkLoop o lp rp entries).1, isRemovalEv e = false := by
  induction entries with
  | nil => intro e he; simp [uploadWalkLoop] at he
  | cons entry rest ih =>
    obtain ⟨rel, subdirs, files⟩ := entry
    intro e he
    rw [uploadWalkLoop] at he
    simp only [] at he
    by_cases hputs : (uploadPutFiles o (if rel = "." then lp else pjoin lp rel)
        (if rel = "." then rp else pjoin rp rel) files).2 = true
    · rw [if_pos hputs, List.append_assoc] at he
      rcases List.mem_append.mp he with h | h
      · obtain ⟨s, _, hs⟩ := List.mem_map.mp h
        subst hs
        rfl
      · rcases List.mem_append.mp h with h' | h'
        · exact uploadPutFiles_no_removal o _ _ files e h'
        · exact ih e h'
    · rw [if_neg hputs] at he
      rcases List.mem_append.mp he with h | h
      · obtain ⟨s, _, hs⟩ := List.mem_map.mp h
        subst hs
        rfl
      · exact uploadPutFiles_no_removal o _ _ files e h

theorem uploadWorker_no_removal (sc : Option Unit) (o : XferOracle)
    (tree : FsTree) (lp rdd : String) (isDir : Bool) :
    ∀ e ∈ uploadWorker sc o tree lp rdd isDir, isRemovalEv e = false := by
  cases sc with
  | none => intro e he; simp [uploadWorker] at he
  | some u =>
    intro e he
    rw [uploadWorker, uploadWorkerBody] at he
    by_cases hdir : isDir = true
    · rw [hdir] at he
      simp only [Bool.not_true, Bool.false_eq_true, if_false] at he
      by_cases hmk : o.mkdirFails (pjoin rdd tree.nodeName) = true
      · rw [if_pos hmk] at he
        rcases List.mem_cons.mp he with h | h
        · subst h; rfl
        rcases List.mem_cons.mp h with h' | h'
        · subst h'; rfl
        simp only [List.mem_singleton] at h'
        subst h'; rfl
      · rw [if_neg hmk] at he
        by_cases hloop : (uploadWalkLoop o lp (pjoin rdd tree.nodeName)
            (walkRel "." tree)).2 = true
        · rw [if_pos hloop] at he
          rcases List.mem_append.mp he with h | h
          · rcases List.mem_append.mp h with h' | h'
            · rcases List.mem_cons.mp h' with h'' | h''
              · subst h''; rfl
              · simp only [List.mem_singleton] at h''
                subst h''; rfl
            · exact uploadWalkLoop_no_removal o _ _ _ e h'
          · rcases List.mem_cons.mp h with h' | h'
            · subst h'; rfl
            · simp only [List.mem_singleton] at h'
              subst h'; rfl
        · rw [if_neg hloop] at he
          rcases List.mem_append.mp he with h | h
          · rcases List.mem_append.mp h with h' | h'
            · rcases List.mem_cons.mp h' with h'' | h''
              · subst h''; rfl
              · simp only [List.mem_singleton] at h''
                subst h''; rfl
            · exact uploadWalkLoop_no_removal o _ _ _ e h'
          · simp only [List.mem_singleton] at h
            subst h; rfl
    · have hdir' : isDir = false := by simpa using hdir
      rw [hdir'] at he
      simp only [Bool.not_false, if_true] at he
      by_cases hput : o.putFails (pjoin rdd tree.nodeName) = true
      · rw [if_pos hput] at he
        rcases List.mem_cons.mp he with h | h
        · subst h; rfl
        rcases List.mem_cons.mp h with h' | h'
        · subst h'; rfl
        simp only [List.mem_singleton] at h'
        subst h'; rfl
      · rw [if_neg hput] at he
        rcases List.mem_cons.mp he with h | h
        · subst h; rfl
        rcases List.mem_cons.mp h with h' | h'
        · subst h'; rfl
        rcases List.mem_cons.mp h' with h'' | h''
        · subst h''; rfl
        simp only [List.mem_singleton] at h''
        subst h''; rfl

mutual

theorem downloadWorker_no_removal (sc : Option Unit) (o : XferOracle)
    (tree : FsTree) (rp ld : String) :
    ∀ e ∈ downloadWorker sc o tree rp ld, isRemovalEv e = false := by
  match sc with
  | none => intro e he; rw [downloadWorker] at he; simp at he
  | some u =>
    match tree with
    | .file n sz =>
      intro e he
      rw [downloadWorker] at he
      split_ifs at he <;> (fin_cases he <;> rfl)
    | .dir n cs =>
      intro e he
      rw [downloadWorker] at he
      split_ifs at he with h1 h2
      · fin_cases he <;> rfl
      · fin_cases he <;> rfl
      · rw [List.append_assoc] at he
        rcases List.mem_append.mp he with h | h
        · fin_cases h <;> rfl
        · rcases List.mem_append.mp h with h' | h'
          · exact downloadChildren_no_removal (some u) o cs rp
              (pjoin ld (FsTree.dir n cs).nodeName) e h'
          · fin_cases h' <;> rfl

theorem downloadChildren_no_removal (sc : Option Unit) (o : XferOracle)
    (cs : List FsTree) (rp lp : String) :
    ∀ e ∈ downloadChildren sc o cs rp lp, isRemovalEv e = false := by
  match cs with
  | [] => intro e he; rw [downloadChildren] at he; simp at he
  | c :: rest =>
    intro e he
    rw [downloadChildren] at he
    rcases List.mem_append.mp he with h | h
    · exact downloadWorker_no_removal sc o c (pjoin rp c.nodeName) lp e h
    · exact downloadChildren_no_removal sc o rest rp lp e h

end

theorem downloadChildren_append (sc : Option Unit) (o : XferOracle)
    (cs₁ cs₂ : List FsTree) (rp lp : String) :
    downloadChildren sc o (cs₁ ++ cs₂) rp lp =
      downloadChildren sc o cs₁ rp lp ++ downloadChildren sc o cs₂ rp lp := by
  induction cs₁ with
  | nil => rw [downloadChildren, List.nil_append, List.nil_append]
  | cons c rest ih =>
    rw [List.cons_append, downloadChildren, downloadChildren, ih,
      List.append_assoc]

/-- Claim C2 (amended): the first-error policy differs by direction.  For a
recursive upload the first raising operation aborts the remainder of the task:
every call the walk loop issues before its last one is a non-raising put or a
swallowed subdirectory mkdir, and when the loop fails its last issued call is
exactly the raising put.  For a recursive download each listed entry is
processed by its own guarded recursive call, so the trace of a directory's
children is always the concatenation of every child's full trace — a failing
entry does not abort its remaining siblings.  In both directions no removal
call is ever issued: files already copied remain copied (no rollback). -/
theorem transfer_first_error_policy (o : XferOracle) (sc : Option Unit)
    (tree : FsTree) (lp rp rdd ldd : String) (isDir : Bool)
    (cs₁ cs₂ : List FsTree) :
    (∀ e ∈ ((uploadWalkLoop o lp rp (walkRel "." tree)).1).dropLast,
        isFailingPut o e = false) ∧
    ((uploadWalkLoop o lp rp (walkRel "." tree)).2 = false →
      ∃ lpth rpth,
        (uploadWalkLoop o lp rp (walkRel "." tree)).1.getLast? =
            some (.putE lpth rpth) ∧ o.putFails rpth = true) ∧
    (downloadChildren sc o (cs₁ ++ cs₂) rp lp =
        downloadChildren sc o cs₁ rp lp ++ downloadChildren sc o cs₂ rp lp) ∧
    (∀ e ∈ uploadWorker sc o tree lp rdd isDir, isRemovalEv e = false) ∧
    (∀ e ∈ downloadWorker sc o tree rp ldd, isRemovalEv e = false) :=
  ⟨uploadWalkLoop_dropLast_ok o lp rp _,
   fun hfail => uploadWalkLoop_fail_last o lp rp _ hfail,
   downloadChildren_append sc o cs₁ cs₂ rp lp,
   uploadWorker_no_removal sc o tree lp rdd isDir,
   downloadWorker_no_removal sc o tree rp ldd⟩

/-- Witness for `transfer_first_error_policy`: on a two-file directory whose
second put raises, the put preceding the loop's last call did not raise, and
the loop's last call is the raising put of `f2`. -/
theorem transfer_first_error_policy_witness :
    isFailingPut
        { mkdirFails := fun _ => false, putFails := fun p => p = "/t/d/f2",
          getFails := fun _ => false, statFails := fun _ => false,
          listdirFails := fun _ => false, makedirsFails := fun _ => false }
        (.putE "/s/d/f1" "/t/d/f1") = false ∧
    (∃ lpth rpth,
      (uploadWalkLoop
          { mkdirFails := fun _ => false, putFails := fun p => p = "/t/d/f2",
            getFails := fun _ => false, statFails := fun _ => false,
            listdirFails := fun _ => false, makedirsFails := fun _ => false }
          "/s/d" "/t/d"
          (walkRel "." (.dir "d" [.file "f1" 1, .file "f2" 1]))).1.getLast? =
          some (.putE lpth rpth) ∧
        ({ mkdirFails := fun _ => false, putFails := fun p => p = "/t/d/f2",
            getFails := fun _ => false, statFails := fun _ => false,
            listdirFails := fun _ => false,
            makedirsFails := fun _ => false } : XferOracle).putFails rpth = true) :=
  ⟨(transfer_first_error_policy _ (some ()) (.dir "d" [.file "f1" 1, .file "f2" 1])
      "/s/d" "/t/d" "" "" true [] []).1 _ (by decide),
   (transfer_first_error_policy _ (some ()) (.dir "d" [.file "f1" 1, .file "f2" 1])
      "/s/d" "/t/d" "" "" true [] []).2.1 (by decide)⟩

/-- Claim C2 counterexample: during the recursive download of a directory
holding files `f1` and `f2` in which the copy of `f1` raises, the worker logs
the failure inside the nested call and still copies `f2` afterwards — the
trace contains the get of `f2` (position 9) after the raising get of `f1`
(position 5), so the first error does not abort the remainder of the task. -/
theorem download_error_does_not_abort :
    downloadWorker (some ())
        { mkdirFails := fun _ => false, putFails := fun _ => false,
          getFails := fun p => p = "/r/d/f1", statFails := fun _ => false,
          listdirFails := fun _ => false, makedirsFails := fun _ => false }
        (.dir "d" [.file "f1" 1, .file "f2" 1]) "/r/d" "/l" =
      [.logE false, .makedirsE "/l/d", .listdirE "/r/d",
       .statE "/r/d/f1", .logE false, .getE "/r/d/f1" "/l/d/f1", .logE true,
       .statE "/r/d/f2", .logE false, .getE "/r/d/f2" "/l/d/f2", .logE false,
       .uiputE, .logE false, .uiputE] ∧
    (fun p => p = "/r/d/f1") "/r/d/f1" = true ∧
    (downloadWorker (some ())
        { mkdirFails := fun _ => false, putFails := fun _ => false,
          getFails := fun p => p = "/r/d/f1", statFails := fun _ => false,
          listdirFails := fun _ => false, makedirsFails := fun _ => false }
        (.dir "d" [.file "f1" 1, .file "f2" 1]) "/r/d" "/l").get? 5 =
      some (.getE "/r/d/f1" "/l/d/f1") ∧
    (downloadWorker (some ())
        { mkdirFails := fun _ => false, putFails := fun _ => false,
          getFails := fun p => p = "/r/d/f1", statFails := fun _ => false,
          listdirFails := fun _ => false, makedirsFails := fun _ => false }
        (.dir "d" [.file "f1" 1, .file "f2" 1]) "/r/d" "/l").get? 9 =
      some (.getE "/r/d/f2" "/l/d/f2") := by
  refine ⟨by decide, by decide, by decide, by decide⟩

/-! ## Bottom-up remote recursive delete (claim C7) -/

/-- `SubtreeAt p t q s`: within the tree `t` rooted at path `p`, the node `s`
sits at path `q`. -/
inductive SubtreeAt : String → FsTree → String → FsTree → Prop where
  | refl (p : String) (t : FsTree) : SubtreeAt p t p t
  | child {p q : String} {s c : FsTree} (n : String) (cs : List FsTree)
      (hc : c ∈ cs) (h : SubtreeAt (pjoin p c.nodeName) c q s) :
      SubtreeAt p (.dir n cs) q s

theorem removalEv_mem_rmTrace (p : String) (t : FsTree) :
    removalEv p t ∈ rmTrace p t := by
  cases t with
  | file n sz => rw [rmTrace, removalEv]; exact List.mem_singleton.mpr rfl
  | dir n cs =>
    rw [rmTrace, removalEv]
    exact List.mem_cons_of_mem _ (List.mem_append.mpr (Or.inr (by simp)))

theorem rmTrace_child_infix (p : String) (cs : List FsTree) (c : FsTree)
    (hc : c ∈ cs) :
    ∃ u w, rmTraceChildren p cs =
      u ++ (rmTrace (pjoin p c.nodeName) c ++ w) := by
  induction cs with
  | nil => cases hc
  | cons c0 rest ih =>
    rcases List.mem_cons.mp hc with h | h
    · subst h
      exact ⟨[], rmTraceChildren p rest, by rw [rmTraceChildren, List.nil_append]⟩
    · obtain ⟨u, w, hd⟩ := ih h
      refine ⟨rmTrace (pjoin p c0.nodeName) c0 ++ u, w, ?_⟩
      rw [rmTraceChildren, hd, List.append_assoc]

theorem get?_embed {α : Type} (u l w : List α) (i : Nat) (a : α)
    (h : l.get? i = some a) : (u ++ (l ++ w)).get? (u.length + i) = some a := by
  rw [List.get?_eq_getElem?] at h
  obtain ⟨hi, -⟩ := List.getElem?_eq_some_iff.mp h
  rw [List.get?_eq_getElem?,
    List.getElem?_append_right (Nat.le_add_right _ _), Nat.add_sub_cancel_left,
    List.getElem?_append, if_pos hi]
  exact h

theorem rm_bottom_up_aux (p : String) (t : FsTree) (q : String) (s : FsTree)
    (hsub : SubtreeAt p t q s) :
    ∀ dn cs c, s = .dir dn cs → c ∈ cs →
      ∃ i j, i < j ∧
        (rmTrace p t).get? i = some (removalEv (pjoin q c.nodeName) c) ∧
        (rmTrace p t).get? j = some (.rmdirE q) := by
  induction hsub with
  | refl p0 t0 =>
    intro dn cs c hs hc
    subst hs
    have hmem : removalEv (pjoin p0 c.nodeName) c ∈ rmTraceChildren p0 cs := by
      obtain ⟨u, w, hd⟩ := rmTrace_child_infix p0 cs c hc
      rw [hd]
      exact List.mem_append.mpr (Or.inr (List.mem_append.mpr
        (Or.inl (removalEv_mem_rmTrace _ c))))
    obtain ⟨i0, hi0⟩ := List.mem_iff_get?.mp hmem
    have hi0len : i0 < (rmTraceChildren p0 cs).length := by
      rw [List.get?_eq_getElem?] at hi0
      obtain ⟨h', -⟩ := List.getElem?_eq_some_iff.mp hi0
      exact h'
    refine ⟨i0 + 1, (rmTraceChildren p0 cs).length + 1, by omega, ?_, ?_⟩
    · rw [rmTrace, List.get?_cons_succ, List.get?_eq_getElem?,
        List.getElem?_append, if_pos hi0len, ← List.get?_eq_getElem?]
      exact hi0
    · rw [rmTrace, List.get?_cons_succ, List.get?_eq_getElem?,
        List.getElem?_append_right (le_refl _), Nat.sub_self]
      rfl
  | child n cs' hc' hsub ih =>
    intro dn cs c hs hc
    obtain ⟨i, j, hij, hi, hj⟩ := ih dn cs c hs hc
    rename_i p' q' s' c'
    obtain ⟨u, w, hdecomp⟩ := rmTrace_child_infix p' cs' c' hc'
    have hwhole : rmTrace p' (.dir n cs') =
        (Ev.listdirE p' :: u) ++
          (rmTrace (pjoin p' c'.nodeName) c' ++
            (w ++ [.rmdirE p', .logE false])) := by
      rw [rmTrace, hdecomp]
      simp [List.append_assoc]
    rw [hwhole]
    exact ⟨(Ev.listdirE p' :: u).length + i, (Ev.listdirE p' :: u).length + j,
      by omega, get?_embed _ _ _ i _ hi, get?_embed _ _ _ j _ hj⟩

/-- Claim C7: remote recursive deletion is bottom-up — for every directory node
of the deleted tree and every one of its children, the `remove` (file child) or
`rmdir` (subdirectory child, issued at the end of its own recursive deletion)
of the child appears in the issued call sequence strictly before the `rmdir` of
the directory itself. -/
theorem rm_recursive_bottom_up (p : String) (t : FsTree) (q : String)
    (dn : String) (cs : List FsTree) (c : FsTree)
    (hsub : SubtreeAt p t q (.dir dn cs)) (hc : c ∈ cs) :
    ∃ i j, i < j ∧
      (rmTrace p t).get? i = some (removalEv (pjoin q c.nodeName) c) ∧
      (rmTrace p t).get? j = some (.rmdirE q) :=
  rm_bottom_up_aux p t q _ hsub dn cs c rfl hc

/-- Witness for `rm_recursive_bottom_up`: the tree of the spec's deletion
scenario, `/a` holding `f1` and `b/f2`, with the child `f1` of the root. -/
theorem rm_recursive_bottom_up_witness :
    ∃ i j, i < j ∧
      (rmTrace "/a" (.dir "a" [.file "f1" 1, .dir "b" [.file "f2" 2]])).get? i =
        some (removalEv (pjoin "/a" (FsTree.file "f1" 1).nodeName) (.file "f1" 1)) ∧
      (rmTrace "/a" (.dir "a" [.file "f1" 1, .dir "b" [.file "f2" 2]])).get? j =
        some (.rmdirE "/a") :=
  rm_recursive_bottom_up "/a" (.dir "a" [.file "f1" 1, .dir "b" [.file "f2" 2]])
    "/a" "a" [.file "f1" 1, .dir "b" [.file "f2" 2]] (.file "f1" 1)
    (SubtreeAt.refl _ _) (List.mem_cons_self _ _)

/-! ## Authentication negotiation (`_sftp_connect_worker`, sftp_widget.py:417-522,
with `KeyringManager.load_password`, keyring.py:40-53) -/

/-- The fields of the host configuration the connect worker reads: the `host`
string (`[user@]host`), the optional key file path (`key_path`) and the
saved-credential key (`name`).  The port only parametrizes the transport
connection, whose outcome the environment describes. -/
structure HostCfg where
  host : String
  keyPath : Option String
  name : Option String

/-- Python truthiness of an optional string: `None` and `""` are falsy. -/
def truthyStr : Option String → Bool
  | none => false
  | some s => !(s == "")

/-- Outcome of the key-based connection attempt of sftp_widget.py:456-481:
success, `paramiko.PasswordRequiredException`,
`paramiko.AuthenticationException`, or any other exception. -/
inductive KeyResult where
  | okK
  | passwordRequiredK
  | authFailedK
  | otherErrorK
  deriving DecidableEq, Repr

/-- Outcomes of the external calls of one negotiation pass: the connection
attempt with the caller-supplied password, the key attempt, the stored secrets
(keyed by the configuration's `name`), and the attempt with a saved secret. -/
structure ConnEnv where
  suppliedPwOk : Bool
  keyResult : KeyResult
  keyring : String → Option String
  savedPwOk : Bool

/-- Terminal state of one pass of the connect worker. -/
inductive WorkerOutcome where
  | connected
  | promptKeyPassphrase
  | promptPassword
  | authFailedTerminal
  | errorReturn
  deriving DecidableEq, Repr

/-- Observable events of one pass: log lines (with the error flag), the two
interactive prompts, the automatic listing of the initial remote directory,
and the enabling of the transfer controls via the UI queue. -/
inductive AuthEv where
  | logA (isError : Bool)
  | promptPassphraseA
  | promptPasswordA
  | loadRemoteDirA
  | enableButtonsA
  deriving DecidableEq, Repr

/-- Split a character list at the first occurrence of `sep`, if any. -/
def splitFirstAt (sep : Char) : List Char → Option (List Char × List Char)
  | [] => none
  | c :: rest =>
    if c = sep then some ([], rest)
    else
      match splitFirstAt sep rest with
      | some (pre, post) => some (c :: pre, post)
      | none => none

/-- `user, host = host_str.split('@', 1)` guarded by `'@' in host_str`
(sftp_widget.py:423-424): `none` when the host string holds no `'@'`. -/
def parseUserHost (hostStr : String) : Option (String × String) :=
  match splitFirstAt '@' hostStr.toList with
  | some (u0, h0) => some (u0.asString, h0.asString)
  | none => none

/-- `KeyringManager.load_password` (keyring.py:40-53): `None` for a falsy host
name, otherwise the stored secret, if any. -/
def loadPassword (hostName : Option String) (keyring : String → Option String) :
    Option String :=
  match hostName with
  | none => none
  | some nm => if nm = "" then none else keyring nm

/-- Saved-secret stage and final block (sftp_widget.py:483-522), reached with
no connection established yet.  A truthy stored secret is tried: success falls
through to the final block (listing of the initial remote path, transfer
controls enabled, `Connected`); failure logs the error and the final block
logs the terminal authentication failure — no prompt.  With no truthy stored
secret an interactive password prompt is scheduled and the worker returns. -/
def savedSecretStage (cfg : HostCfg) (env : ConnEnv) (evs : List AuthEv) :
    WorkerOutcome × List AuthEv :=
  let saved := loadPassword cfg.name env.keyring
  if truthyStr saved then
    if env.savedPwOk then
      (.connected,
        evs ++ [.logA false, .logA false, .loadRemoteDirA, .enableButtonsA])
    else
      (.authFailedTerminal, evs ++ [.logA false, .logA true, .logA true])
  else
    (.promptPassword, evs ++ [.logA false, .promptPasswordA])

/-- Key stage (sftp_widget.py:454-481) and everything after it, reached with
no connection yet: with a truthy configured key path the key attempt runs —
success falls to the final block, an encrypted key schedules a passphrase
prompt and returns, an authentication rejection falls through to the
saved-secret stage, any other failure returns; without a key path the
saved-secret stage runs directly. -/
def keyStage (cfg : HostCfg) (env : ConnEnv) (evs : List AuthEv) :
    WorkerOutcome × List AuthEv :=
  if truthyStr cfg.keyPath then
    match env.keyResult with
    | .okK =>
        (.connected,
          evs ++ [.logA false, .logA false, .loadRemoteDirA, .enableButtonsA])
    | .passwordRequiredK =>
        (.promptKeyPassphrase,
          evs ++ [.logA false, .logA false, .promptPassphraseA])
    | .authFailedK => savedSecretStage cfg env (evs ++ [.logA false, .logA false])
    | .otherErrorK => (.errorReturn, evs ++ [.logA false, .logA true])
  else
    savedSecretStage cfg env evs

/-- `_sftp_connect_worker` (sftp_widget.py:417-522), one negotiation pass
starting disconnected: resolve the user name (explicit `user@` or the earlier
prompt's answer, both by Python truthiness), try a truthy caller-supplied
password first (success connects and returns; failure logs and falls
through), then the key stage.  The `keyPassphrase` argument only parametrizes
the key attempt, whose outcome `env.keyResult` already describes. -/
def sftpConnectWorker (cfg : HostCfg)
    (usernameFromPrompt _keyPassphrase authPassword : Option String)
    (env : ConnEnv) : WorkerOutcome × List AuthEv :=
  let userHost : Option (String × String) :=
    match parseUserHost cfg.host with
    | some uh => some uh
    | none =>
      match usernameFromPrompt with
      | some u0 => if u0 = "" then none else some (u0, cfg.host)
      | none => none
  match userHost with
  | none => (.errorReturn, [.logA true])
  | some _ =>
    if truthyStr authPassword then
      if env.suppliedPwOk then
        (.connected, [.logA false, .logA false, .loadRemoteDirA, .enableButtonsA])
      else
        keyStage cfg env [.logA false, .logA true]
    else
      keyStage cfg env []

theorem keyStage_to_saved (cfg : HostCfg) (env : ConnEnv) (evs : List AuthEv)
    (hkey : truthyStr cfg.keyPath = false ∨ env.keyResult = .authFailedK) :
    ∃ evs2, keyStage cfg env evs = savedSecretStage cfg env evs2 ∧
      ∀ e ∈ evs2, e ∈ evs ∨ e = .logA false := by
  by_cases hkc : truthyStr cfg.keyPath = true
  · have hkr : env.keyResult = .authFailedK := by
      rcases hkey with hcontra | hgiven
      · rw [hkc] at hcontra; exact absurd hcontra (by simp)
      · exact hgiven
    refine ⟨evs ++ [.logA false, .logA false], ?_, ?_⟩
    · rw [keyStage, if_pos hkc, hkr]
    · intro e he
      rcases List.mem_append.mp he with hin | hin
      · exact Or.inl hin
      · right
        rcases List.mem_cons.mp hin with heq | heq
        · exact heq
        · simpa using heq
  · refine ⟨evs, ?_, fun e he => Or.inl he⟩
    rw [keyStage, if_neg hkc]

/-- Claim C1 (amended): when a negotiation pass reaches the saved-secret
strategy, a stored (truthy) secret whose connection attempt fails ends the
pass in the terminal authentication-failure state — the error is logged and no
interactive prompt of either kind is issued; only when no secret is stored
does the pass go to the interactive password prompt. -/
theorem saved_secret_failure_ends_pass (cfg : HostCfg)
    (unp kp ap : Option String) (env : ConnEnv) (u h : String)
    (hparse : parseUserHost cfg.host = some (u, h))
    (hap : truthyStr ap = false ∨ env.suppliedPwOk = false)
    (hkey : truthyStr cfg.keyPath = false ∨ env.keyResult = .authFailedK) :
    (truthyStr (loadPassword cfg.name env.keyring) = true →
      env.savedPwOk = false →
      (sftpConnectWorker cfg unp kp ap env).1 = .authFailedTerminal ∧
      AuthEv.promptPasswordA ∉ (sftpConnectWorker cfg unp kp ap env).2 ∧
      AuthEv.promptPassphraseA ∉ (sftpConnectWorker cfg unp kp ap env).2) ∧
    (truthyStr (loadPassword cfg.name env.keyring) = false →
      (sftpConnectWorker cfg unp kp ap env).1 = .promptPassword) := by
  have hbase : ∃ evs,
      sftpConnectWorker cfg unp kp ap env = savedSecretStage cfg env evs ∧
      ∀ e ∈ evs, e = AuthEv.logA false ∨ e = AuthEv.logA true := by
    by_cases hap2 : truthyStr ap = true
    · have hsup : env.suppliedPwOk = false := by
        rcases hap with hcontra | hgiven
        · rw [hap2] at hcontra; exact absurd hcontra (by simp)
        · exact hgiven
      obtain ⟨evs2, hk, hmem⟩ :=
        keyStage_to_saved cfg env [.logA false, .logA true] hkey
      refine ⟨evs2, ?_, ?_⟩
      · simp only [sftpConnectWorker, hparse, hap2, hsup, Bool.false_eq_true,
          if_true, if_false]
        exact hk
      · intro e he
        rcases hmem e he with hin | heq
        · rcases List.mem_cons.mp hin with heq' | heq'
          · exact Or.inl heq'
          · exact Or.inr (by simpa using heq')
        · exact Or.inl heq
    · have hap2' : truthyStr ap = false := by simpa using hap2
      obtain ⟨evs2, hk, hmem⟩ := keyStage_to_saved cfg env [] hkey
      refine ⟨evs2, ?_, ?_⟩
      · simp only [sftpConnectWorker, hparse, hap2', Bool.false_eq_true,
          if_false]
        exact hk
      · intro e he
        rcases hmem e he with hin | heq
        · cases hin
        · exact Or.inl heq
  obtain ⟨evs, hworker, hmem⟩ := hbase
  constructor
  · intro hsaved hspw
    have hstage : savedSecretStage cfg env evs =
        (.authFailedTerminal, evs ++ [.logA false, .logA true, .logA true]) := by
      rw [savedSecretStage]
      simp only [hsaved, if_true, hspw, Bool.false_eq_true, if_false]
    refine ⟨by rw [hworker, hstage], ?_, ?_⟩
    · rw [hworker, hstage]
      intro hcon
      rcases List.mem_append.mp hcon with hin | hin
      · rcases hmem _ hin with heq | heq <;> exact AuthEv.noConfusion heq
      · simp at hin
    · rw [hworker, hstage]
      intro hcon
      rcases List.mem_append.mp hcon with hin | hin
      · rcases hmem _ hin with heq | heq <;> exact AuthEv.noConfusion heq
      · simp at hin
  · intro hsaved
    have hstage : savedSecretStage cfg env evs =
        (.promptPassword, evs ++ [.logA false, .promptPasswordA]) := by
      rw [savedSecretStage]
      simp only [hsaved, Bool.false_eq_true, if_false]
    rw [hworker, hstage]

/-- Witness for `saved_secret_failure_ends_pass`: a pass with no key path, a
stored secret for `h` and a failing saved-secret attempt ends in the terminal
authentication failure with no prompt issued. -/
theorem saved_secret_failure_ends_pass_witness :
    (sftpConnectWorker ⟨"user@h", none, some "h"⟩ none none none
        ⟨false, .okK, fun nm => if nm = "h" then some "pw" else none,
          false⟩).1 = .authFailedTerminal ∧
    AuthEv.promptPasswordA ∉
      (sftpConnectWorker ⟨"user@h", none, some "h"⟩ none none none
        ⟨false, .okK, fun nm => if nm = "h" then some "pw" else none,
          false⟩).2 ∧
    AuthEv.promptPassphraseA ∉
      (sftpConnectWorker ⟨"user@h", none, some "h"⟩ none none none
        ⟨false, .okK, fun nm => if nm = "h" then some "pw" else none,
          false⟩).2 :=
  (saved_secret_failure_ends_pass ⟨"user@h", none, some "h"⟩ none none none
      ⟨false, .okK, fun nm => if nm = "h" then some "pw" else none, false⟩
      "user" "h" (by decide) (Or.inl (by decide)) (Or.inl (by decide))).1
    (by decide) rfl

/-- Claim C1 counterexample: a pass that reaches the saved-secret strategy
with a stored secret whose connection attempt fails does not proceed to the
password prompt — it ends in the terminal authentication failure, with no
prompt event in its trace. -/
theorem saved_secret_failure_no_prompt_counterexample :
    sftpConnectWorker ⟨"user@h", none, some "h"⟩ none none none
        ⟨false, .okK, fun nm => if nm = "h" then some "pw" else none, false⟩ =
      (.authFailedTerminal, [.logA false, .logA true, .logA true]) ∧
    WorkerOutcome.authFailedTerminal ≠ WorkerOutcome.promptPassword ∧
    AuthEv.promptPasswordA ∉
      (sftpConnectWorker ⟨"user@h", none, some "h"⟩ none none none
        ⟨false, .okK, fun nm => if nm = "h" then some "pw" else none,
          false⟩).2 := by
  refine ⟨by decide, by decide, by decide⟩

/-- Claim C6: with host `user@h`, key path `/bad/key`, a key attempt that
fails with an authentication error, and a saved secret stored for `h` whose
connection attempt succeeds, the pass reaches `Connected` — the initial remote
listing is triggered and the transfer controls are enabled — without any
interactive prompt being issued. -/
theorem key_fail_saved_secret_connects :
    (sftpConnectWorker ⟨"user@h", some "/bad/key", some "h"⟩ none none none
        ⟨false, .authFailedK,
          fun nm => if nm = "h" then some "s3cr3t" else none, true⟩).1 =
      .connected ∧
    AuthEv.promptPasswordA ∉
      (sftpConnectWorker ⟨"user@h", some "/bad/key", some "h"⟩ none none none
        ⟨false, .authFailedK,
          fun nm => if nm = "h" then some "s3cr3t" else none, true⟩).2 ∧
    AuthEv.promptPassphraseA ∉
      (sftpConnectWorker ⟨"user@h", some "/bad/key", some "h"⟩ none none none
        ⟨false, .authFailedK,
          fun nm => if nm = "h" then some "s3cr3t" else none, true⟩).2 ∧
    AuthEv.loadRemoteDirA ∈
      (sftpConnectWorker ⟨"user@h", some "/bad/key", some "h"⟩ none none none
        ⟨false, .authFailedK,
          fun nm => if nm = "h" then some "s3cr3t" else none, true⟩).2 ∧
    AuthEv.enableButtonsA ∈
      (sftpConnectWorker ⟨"user@h", some "/bad/key", some "h"⟩ none none none
        ⟨false, .authFailedK,
          fun nm => if nm = "h" then some "s3cr3t" else none, true⟩).2 := by
  refine ⟨by decide, by decide, by decide, by decide, by decide⟩

/-! ## Remote directory listing (`_load_remote_directory`, sftp_widget.py:339-382) -/

/-- One attributed entry of `listdir_attr`: name and the `st_mode`, `st_size`,
`st_mtime` attributes the listing reads. -/
structure RAttr where
  filename : String
  st_mode : Nat
  st_size : Nat
  st_mtime : Nat
  deriving DecidableEq, Repr

/-- `stat.S_ISDIR`: the file-type field of the mode equals `S_IFDIR`. -/
def sIsDir (mode : Nat) : Bool := mode &&& 0o170000 == 0o040000

/-- The case-insensitive name order of the listing's two sorts
(`key=lambda x: x.filename.lower()`). -/
def attrLe (a b : RAttr) : Prop := a.filename.toLower ≤ b.filename.toLower

instance : DecidableRel attrLe := fun a b =>
  inferInstanceAs (Decidable (a.filename.toLower ≤ b.filename.toLower))

instance : IsTotal RAttr attrLe := ⟨fun x y => le_total x.filename.toLower y.filename.toLower⟩

instance : IsTrans RAttr attrLe := ⟨fun _ _ _ hab hbc => le_trans hab hbc⟩

/-- One row appended to the remote list store (sftp_widget.py:358-367).  The
two human-readable strings are derived from `sizeBytes` and `modifiedTs`
(`_format_size`, `_format_date`); the raw values are carried here. -/
structure Row where
  iconName : String
  name : String
  sizeBytes : Int
  permMode : Nat
  modifiedTs : Nat
  isDir : Bool
  fullPath : String
  deriving DecidableEq, Repr

/-- Directory row: folder icon, `<DIR>` size (sentinel -1), is-dir flag. -/
def dirRow (path : String) (a : RAttr) : Row :=
  ⟨"folder-symbolic", a.filename, -1, a.st_mode, a.st_mtime, true,
    pjoin path a.filename⟩

/-- File row: document icon, raw size, is-dir flag cleared. -/
def fileRow (path : String) (a : RAttr) : Row :=
  ⟨"document-symbolic", a.filename, (a.st_size : Int), a.st_mode, a.st_mtime,
    false, pjoin path a.filename⟩

/-- `_load_remote_directory` (sftp_widget.py:339-382): log the opening line;
on a successful `listdir_attr` partition into directories and files in listing
order, sort each partition by the lowercased name, build the directory rows
then the file rows, enqueue the single store-replacing UI update and log
success; on any exception log a single error line and enqueue nothing.  The
first component is the content of the enqueued update (`none` when no update
was enqueued — no partial result). -/
def loadRemoteDirectory (path : String) (res : Except String (List RAttr)) :
    Option (List Row) × List Ev :=
  match res with
  | .error _ => (none, [.logE false, .logE true])
  | .ok items =>
    let dirs := items.filter (fun a => sIsDir a.st_mode)
    let files := items.filter (fun a => !sIsDir a.st_mode)
    let rows := (dirs.insertionSort attrLe).map (dirRow path) ++
      (files.insertionSort attrLe).map (fileRow path)
    (some rows, [.logE false, .uiputE, .logE false])

/-- Claim C8: every successful remote listing produces the directory rows
before the file rows, each of the two groups sorted case-insensitively by
name; any failure aborts the whole listing with a single logged error and no
UI update is enqueued — no partial result is shown. -/
theorem remote_listing_shape (path : String) (items : List RAttr)
    (err : String) :
    (∃ ds fs,
      (loadRemoteDirectory path (.ok items)).1 = some (ds ++ fs) ∧
      (∀ r ∈ ds, r.isDir = true) ∧
      (∀ r ∈ fs, r.isDir = false) ∧
      List.Sorted (fun r t : Row => r.name.toLower ≤ t.name.toLower) ds ∧
      List.Sorted (fun r t : Row => r.name.toLower ≤ t.name.toLower) fs ∧
      (loadRemoteDirectory path (.ok items)).2 =
        [.logE false, .uiputE, .logE false]) ∧
    loadRemoteDirectory path (.error err) =
      (none, [.logE false, .logE true]) := by
  constructor
  · simp only [loadRemoteDirectory]
    refine ⟨_, _, rfl, ?_, ?_, ?_, ?_, by trivial⟩
    · intro r hr
      obtain ⟨a, -, ha⟩ := List.mem_map.mp hr
      rw [← ha]
      rfl
    · intro r hr
      obtain ⟨a, -, ha⟩ := List.mem_map.mp hr
      rw [← ha]
      rfl
    · exact List.Pairwise.map (dirRow path) (fun a b hab => hab)
        (List.sorted_insertionSort attrLe _)
    · exact List.Pairwise.map (fileRow path) (fun a b hab => hab)
        (List.sorted_insertionSort attrLe _)
  · rfl

/-! ## Session teardown (`on_widget_destroy`, sftp_widget.py:813-828) -/

/-- Observable events of the teardown handler, in order: closing the two
clients, cancelling a file monitor, the recursive deletion of the scratch
directory, log lines, and the uncaught `TypeError` of the final log call. -/
inductive TdEv where
  | closeSftpT
  | closeSshT
  | cancelMonitorT
  | rmtreeT
  | logInfoT
  | logErrorT
  | typeErrorT
  deriving DecidableEq, Repr

/-- The widget state the teardown handler touches: whether the two clients are
open, the monitored scratch files (`self.file_monitors`), and whether the
scratch workspace directory exists on disk. -/
structure WidgetTeardownState where
  sftpOpen : Bool
  sshOpen : Bool
  monitors : List String
  tempDirExists : Bool
  deriving DecidableEq, Repr

/-- sftp_widget.py imports `os`, `pathlib`, `datetime`, `stat`, `logging`,
`threading`, `tempfile` and `queue` (lines 1-17) but never `shutil`, so the
name `shutil` is unbound in the module and evaluating `shutil.rmtree(...)`
raises `NameError` before touching the disk. -/
def shutilImported : Bool := false

/-- `on_widget_destroy` (sftp_widget.py:813-828): close the SFTP and SSH
clients if open, cancel every file monitor and clear the table, then attempt
`shutil.rmtree(self.temp_dir)` inside the `try`/`except` of lines 822-826 —
because `shutil` is not imported the call raises `NameError` at once, the
handler logs the cleanup failure, and the scratch directory stays on disk.
The final `self._log_message(_("SFTP connection closed."))` applies `_`, which
the monitor loop of line 819 has rebound to the last monitored remote path (a
string) whenever at least one monitor existed, raising an uncaught
`TypeError`; with no monitors the closing line is logged normally. -/
def onWidgetDestroy (st : WidgetTeardownState) :
    WidgetTeardownState × List TdEv :=
  let closeEvs := (if st.sftpOpen then [TdEv.closeSftpT] else []) ++
    (if st.sshOpen then [TdEv.closeSshT] else [])
  let cancelEvs := st.monitors.map (fun _ => TdEv.cancelMonitorT)
  let rmEvs := if shutilImported then [TdEv.rmtreeT, TdEv.logInfoT]
    else [TdEv.logErrorT]
  let finalEvs := if st.monitors = [] then [TdEv.logInfoT] else [TdEv.typeErrorT]
  ({ st with
      sftpOpen := false
      sshOpen := false
      monitors := []
      tempDirExists := st.tempDirExists && !shutilImported },
    closeEvs ++ cancelEvs ++ rmEvs ++ finalEvs)

/-- Claim C4 (code bug): at teardown every outstanding watch is cancelled
first, but the scratch workspace is never deleted — `shutil` is not imported
in sftp_widget.py, so `shutil.rmtree(self.temp_dir)` raises `NameError`, the
`except` block logs the cleanup failure, and the directory survives.  Concrete
teardown of a session with one watched file and a live scratch directory: the
watch is cancelled (before the deletion attempt), yet `tempDirExists` is still
true afterwards. -/
theorem teardown_leaves_scratch_dir :
    onWidgetDestroy ⟨true, true, ["/r/x.txt"], true⟩ =
      (⟨false, false, [], true⟩,
        [.closeSftpT, .closeSshT, .cancelMonitorT, .logErrorT, .typeErrorT]) ∧
    (onWidgetDestroy ⟨true, true, ["/r/x.txt"], true⟩).1.tempDirExists = true ∧
    (onWidgetDestroy ⟨true, true, ["/r/x.txt"], true⟩).1.monitors = [] := by
  refine ⟨by decide, by decide, by decide⟩

end ThongsSftp
